import Mathlib

/-!
Verification of the incremental cache-synchronization pipeline of
`scripts/main.py` (hyperliquid-stats).

Conventions of the shallow embedding:
* Python floats are modelled as rationals (`ℚ`); the numeric claims are about
  the exact arithmetic the code performs, not about float rounding.
* Dates are modelled as integers counting days since 1970-01-01
  (e.g. 2024-01-01 is 19723, 2024-01-09 is 19731, 2024-01-10 is 19732);
  `datetime.timedelta(days=1)` is `+ 1`.
* An order-book level `{px, sz}` is a pair of rationals; a snapshot's
  `levels` field `[[bids...],[asks...]]` is modelled by the two lists.
* Database tables of the run model are represented by the list of `time`
  values of their rows, which is all `get_latest_date` and the consistency
  check inspect.
-/

/-- One order-book level `{px, sz}` (prices and sizes parsed by `float(...)`
in the source). -/
structure Level where
  px : ℚ
  sz : ℚ
deriving DecidableEq

/-- The notional `float(level['px']) * float(level['sz'])` of one level,
called `liquidity` inside `calculate_slippage`. -/
def levelNotional (l : Level) : ℚ := l.px * l.sz

/-- Cumulative notional `sum(px*sz)` over a list of levels. -/
def totalNotional (levels : List Level) : ℚ := (levels.map levelNotional).sum

/-- The `for level in ask_levels` loop of `calculate_slippage`
(main.py lines 112-137): starting from accumulators
`average_executed_price = avg` and `filled_liquidity = filled`, walk the
levels; on `filled + liquidity >= N` add the final partial weight
`(N - filled)/N * px`, set `filled = N` and break, otherwise add the full
weight `liquidity/N * px` and continue.  Returns the pair
`(average_executed_price, filled_liquidity)` at loop exit. -/
def slippageWalk (N : ℚ) : List Level → ℚ → ℚ → ℚ × ℚ
  | [], avg, filled => (avg, filled)
  | l :: rest, avg, filled =>
      let liquidity := l.px * l.sz
      if N ≤ filled + liquidity then
        (avg + (N - filled) / N * l.px, N)
      else
        slippageWalk N rest (avg + liquidity / N * l.px) (filled + liquidity)

/-- `calculate_slippage` (main.py lines 104-145): walk the ask levels with
both accumulators at `0`; if the walk filled the whole nominal value return
`abs(average_executed_price / mid - 1)`, else the sentinel `1`. -/
def calculate_slippage (askLevels : List Level) (mid : ℚ) (N : ℚ) : ℚ :=
  let r := slippageWalk N askLevels 0 0
  if N ≤ r.2 then |r.1 / mid - 1| else 1

/-- Index of the level at which the walk for nominal value `N` breaks: the
first level whose notional covers what is still needed. -/
def fillIndex (N : ℚ) : List Level → ℕ
  | [] => 0
  | l :: rest => if N ≤ levelNotional l then 0 else fillIndex (N - levelNotional l) rest + 1

/-- Notional filled by the first `k` levels. -/
def notionalBefore (levels : List Level) (k : ℕ) : ℚ := totalNotional (levels.take k)

/-- The average executed price as the specification words it: the
notional-weighted average of the consumed level prices, each fully consumed
level weighted by `(px*sz)/N` and the final partially consumed level weighted
by the fraction `(N - previously filled liquidity)/N` of `N` it contributes. -/
def averageExecutedPriceSpec (levels : List Level) (N : ℚ) : ℚ :=
  (((levels.take (fillIndex N levels)).map (fun l => levelNotional l / N * l.px)).sum)
    + (N - notionalBefore levels (fillIndex N levels)) / N
      * ((levels.getD (fillIndex N levels) ⟨0, 0⟩).px)

/-- Minimum of a list of rationals (`0` for the empty list, which never
occurs below: the consumed-level list is nonempty). -/
def listMin : List ℚ → ℚ
  | [] => 0
  | [x] => x
  | x :: y :: rest => min x (listMin (y :: rest))

/-- Maximum of a list of rationals (`0` for the empty list). -/
def listMax : List ℚ → ℚ
  | [] => 0
  | [x] => x
  | x :: y :: rest => max x (listMax (y :: rest))

/-- `generate_dates` (main.py lines 95-101): the list
`[start_date + x for x in range((end_date - start_date).days + 1)]` with
`end_date = today`; empty when `start_date` is after today. -/
def generate_dates (start_date today : ℤ) : List ℤ :=
  (List.range (today - start_date + 1).toNat).map (fun x : ℕ => start_date + (x : ℤ))

/-- `get_latest_date` (main.py lines 75-79): `SELECT max(time) FROM table`,
which is `NULL` (here `none`) on an empty table.  A table is modelled by the
list of its rows' `time` values. -/
def get_latest_date : List ℤ → Option ℤ
  | [] => none
  | t :: rest =>
      match get_latest_date rest with
      | none => some t
      | some m => some (max t m)

/-- The watermark seeding of `main` (lines 345-349): keep a present date
watermark; replace an absent (`NULL`, falsy) one by today minus 30 days. -/
def seedStart (watermark : Option ℤ) (today : ℤ) : ℤ :=
  match watermark with
  | some d => d
  | none => today - 30

/-- The per-date loop of `main` (lines 355-380) over `dates[1:]`: each date is
attempted independently; on success (`ok date`) its cache rows are committed,
on any exception the date is reported to the alert sink and the loop moves on
to the next date.  Returns `(committed dates, alerted dates)`. -/
def runLoop (ok : ℤ → Bool) : List ℤ → List ℤ × List ℤ
  | [] => ([], [])
  | d :: rest =>
      let r := runLoop ok rest
      if ok d then (d :: r.1, r.2) else (r.1, d :: r.2)

/-- The end-of-run consistency check of `main` (lines 382-387): with a truthy
cache max date, compare it against the raw table's max date (via their `[:10]`
date strings, i.e. at day granularity) and alert with both values when they
differ.  Returns the content of the alert, `none` when no alert is sent. -/
def consistencyCheck (cacheMax rawMax : Option ℤ) : Option (ℤ × Option ℤ) :=
  match cacheMax with
  | none => none
  | some c => if rawMax = some c then none else some (c, rawMax)

/-- Observable outcome of one dataset's run in `main`. -/
structure DatasetRun where
  committed : List ℤ
  failureAlerts : List ℤ
  divergence : Option (ℤ × Option ℤ)
deriving DecidableEq

/-- One dataset's full run (main.py lines 343-387): read the cache watermark,
seed it if absent, build `generate_dates`, process `dates[1:]` with per-date
failure isolation, append the committed dates' rows to both the raw and the
cache table, and finally run the consistency check once on the resulting
tables. -/
def runDataset (ok : ℤ → Bool) (cache0 raw0 : List ℤ) (today : ℤ) : DatasetRun :=
  let start := seedStart (get_latest_date cache0) today
  let dates := (generate_dates start today).drop 1
  let r := runLoop ok dates
  { committed := r.1
    failureAlerts := r.2
    divergence := consistencyCheck (get_latest_date (cache0 ++ r.1))
        (get_latest_date (raw0 ++ r.1)) }

/-- Insertion of one value into a sorted list of rationals. -/
def insertSorted (x : ℚ) : List ℚ → List ℚ
  | [] => [x]
  | y :: rest => if x ≤ y then x :: y :: rest else y :: insertSorted x rest

/-- Insertion sort of a list of rationals. -/
def sortList (xs : List ℚ) : List ℚ := xs.foldr insertSorted []

/-- The pandas `Series.median` used by the groupby aggregations: sort the
values; for odd counts take the middle value, for even positive counts the
average of the two middle values (`0` for an empty series, which never arises
for a non-empty group). -/
def median (xs : List ℚ) : ℚ :=
  if xs.length = 0 then 0
  else if xs.length % 2 = 1 then (sortList xs).getD (xs.length / 2) 0
  else ((sortList xs).getD (xs.length / 2 - 1) 0 + (sortList xs).getD (xs.length / 2) 0) / 2

/-- The pandas `mean` aggregation: sum divided by count. -/
def mean (xs : List ℚ) : ℚ := xs.sum / xs.length

/-- One parsed order-book snapshot line of a `market_data` partition:
`coin = raw.data.coin` and `levels = [[bids...],[asks...]]` modelled by the
two level lists.  The parsed `time` column is irrelevant here because
`update_market_data_cache` overwrites it with the partition date before
grouping; `ver_num`, `channel` and `raw_time` are carried through unused. -/
structure Snapshot where
  coin : String
  bids : List Level
  asks : List Level
deriving DecidableEq

/-- The `liquidity` column (main.py lines 158-162):
`sum(px*sz for level in levels for bid_or_ask in level)` over both sides. -/
def snapLiquidity (s : Snapshot) : ℚ :=
  (([s.bids, s.asks].flatten).map (fun l => l.px * l.sz)).sum

/-- The `highest_bid` column (main.py line 172): `levels[0][0]['px']`. -/
def snapHighestBid (s : Snapshot) : ℚ := (s.bids.headD ⟨0, 0⟩).px

/-- The `lowest_ask` column (main.py line 173): `levels[1][0]['px']`. -/
def snapLowestAsk (s : Snapshot) : ℚ := (s.asks.headD ⟨0, 0⟩).px

/-- The `mid` column (main.py line 176): `(highest_bid + lowest_ask) / 2`. -/
def snapMid (s : Snapshot) : ℚ := (snapHighestBid s + snapLowestAsk s) / 2

/-- One row of the `market_data_cache` table. -/
structure MarketCacheRow where
  time : ℤ
  coin : String
  median_liquidity : ℚ
  median_slippage_1000 : ℚ
  median_slippage_3000 : ℚ
  median_slippage_10000 : ℚ
  mid_price : ℚ
deriving DecidableEq

/-- `update_market_data_cache` (main.py lines 148-193): per snapshot compute
liquidity, mid and the slippage for the nominal values 1000, 3000, 10000;
set every row's `time` to the partition date; then group by `(time, coin)` —
one group per distinct coin, since `time` is constant — and aggregate the
median liquidity, the median slippage per tier and the mean mid. -/
def update_market_data_cache (date : ℤ) (snaps : List Snapshot) : List MarketCacheRow :=
  ((snaps.map (fun s => s.coin)).dedup).map (fun c =>
    let group := snaps.filter (fun s => s.coin = c)
    { time := date
      coin := c
      median_liquidity := median (group.map snapLiquidity)
      median_slippage_1000 :=
        median (group.map (fun s => calculate_slippage s.asks (snapMid s) 1000))
      median_slippage_3000 :=
        median (group.map (fun s => calculate_slippage s.asks (snapMid s) 3000))
      median_slippage_10000 :=
        median (group.map (fun s => calculate_slippage s.asks (snapMid s) 10000))
      mid_price := mean (group.map snapMid) })

/-- One raw row of a `non_mm_trades` partition (the columns the trades branch
of `update_cache_tables` touches). -/
structure TradeRow where
  user : String
  coin : String
  side : String
  crossed : Bool
  special_trade_type : String
  px : ℚ
  sz : ℚ
deriving DecidableEq

/-- The five grouping columns of the trades aggregation. -/
def tradeKey (r : TradeRow) : String × String × String × Bool × String :=
  (r.user, r.coin, r.side, r.crossed, r.special_trade_type)

/-- One row of the `non_mm_trades_cache` table. -/
structure TradeCacheRow where
  user : String
  coin : String
  side : String
  crossed : Bool
  special_trade_type : String
  mean_px : ℚ
  sum_sz : ℚ
  group_count : ℕ
  time : ℤ
  usd_volume : ℚ
deriving DecidableEq

/-- Lexicographic code-point comparison of character lists, the order Python
and pandas use for strings. -/
def charListLt : List Char → List Char → Bool
  | [], [] => false
  | [], _ :: _ => true
  | _ :: _, [] => false
  | a :: as, b :: bs =>
      if a.toNat < b.toNat then true
      else if b.toNat < a.toNat then false
      else charListLt as bs

/-- Python string `<`: lexicographic on code points. -/
def strLt (a b : String) : Bool := charListLt a.data b.data

/-- Strict lexicographic order on the five grouping columns: the order in
which the pandas `groupby` (with its default `sort=True`) emits the group
keys.  Booleans order `False < True`. -/
def tradeKeyLt (k1 k2 : String × String × String × Bool × String) : Bool :=
  if k1.1 ≠ k2.1 then strLt k1.1 k2.1
  else if k1.2.1 ≠ k2.2.1 then strLt k1.2.1 k2.2.1
  else if k1.2.2.1 ≠ k2.2.2.1 then strLt k1.2.2.1 k2.2.2.1
  else if k1.2.2.2.1 ≠ k2.2.2.2.1 then !k1.2.2.2.1 && k2.2.2.2.1
  else strLt k1.2.2.2.2 k2.2.2.2.2

/-- Insertion into a list sorted by `tradeKeyLt`. -/
def insertKeySorted (k : String × String × String × Bool × String) :
    List (String × String × String × Bool × String) →
    List (String × String × String × Bool × String)
  | [] => [k]
  | y :: rest => if tradeKeyLt k y then k :: y :: rest else y :: insertKeySorted k rest

/-- The distinct grouping keys of a partition in ascending key order: the
row order of `df_agg` after `groupby(...).agg(...).reset_index()`. -/
def sortedTradeKeys (rows : List TradeRow) : List (String × String × String × Bool × String) :=
  ((rows.map tradeKey).dedup).foldr insertKeySorted []

/-- Entry `j` of `df.groupby([...])["user"].transform("count")` (main.py
lines 221-223): the size of the group that RAW row `j` belongs to.  The
Series is indexed by the raw DataFrame's RangeIndex `0..n-1`. -/
def rawRowGroupSize (rows : List TradeRow) (j : ℕ) : ℕ :=
  (rows.filter (fun r => tradeKey r
    = tradeKey (rows.getD j ⟨"", "", "", false, "", 0, 0⟩))).length

/-- The trades branch of `update_cache_tables` (main.py lines 205-228):
group by `(user, coin, side, crossed, special_trade_type)` in ascending key
order (pandas `groupby` sorts the keys), aggregate `px` by (unweighted) mean
and `sz` by sum per group, attach the partition date, and derive
`usd_volume = mean_px * sum_sz`.  The `group_count` column, however, is
assigned from `df.groupby(...)["user"].transform("count")` — a Series
indexed by RAW row position — into `df_agg`, whose RangeIndex after
`reset_index()` runs over the sorted groups; pandas aligns the assignment on
the index, so output group `j` receives the group size of raw row `j`
(`rawRowGroupSize rows j`), not its own row count. -/
def update_cache_tables_trades (rows : List TradeRow) (date : ℤ) : List TradeCacheRow :=
  (sortedTradeKeys rows).enum.map (fun jk =>
    let g := rows.filter (fun r => tradeKey r = jk.2)
    { user := jk.2.1, coin := jk.2.2.1, side := jk.2.2.2.1, crossed := jk.2.2.2.2.1,
      special_trade_type := jk.2.2.2.2.2,
      mean_px := mean (g.map (fun r => r.px)),
      sum_sz := (g.map (fun r => r.sz)).sum,
      group_count := rawRowGroupSize rows jk.1,
      time := date,
      usd_volume := mean (g.map (fun r => r.px)) * (g.map (fun r => r.sz)).sum })

/-- The spec's concrete trades example: two crossed BTC buys of user U1,
`(px=100, sz=2)` and `(px=102, sz=1)`. -/
def exampleTradeRows : List TradeRow :=
  [⟨"U1", "BTC", "buy", true, "na", 100, 2⟩, ⟨"U1", "BTC", "buy", true, "na", 102, 1⟩]

/-- A trades partition whose first raw row belongs to the later-sorted
group: one U2 row first, then U1's two rows `(px=100, sz=2)`,
`(px=102, sz=1)`. -/
def misalignedTradeRows : List TradeRow :=
  [⟨"U2", "BTC", "buy", true, "na", 100, 1⟩,
   ⟨"U1", "BTC", "buy", true, "na", 100, 2⟩,
   ⟨"U1", "BTC", "buy", true, "na", 102, 1⟩]

lemma totalNotional_cons (l : Level) (rest : List Level) :
    totalNotional (l :: rest) = levelNotional l + totalNotional rest := by
  simp [totalNotional]

lemma totalNotional_nonneg (levels : List Level)
    (h : ∀ l ∈ levels, 0 ≤ levelNotional l) : 0 ≤ totalNotional levels := by
  refine List.sum_nonneg ?_
  intro x hx
  rcases List.mem_map.mp hx with ⟨l, hl, rfl⟩
  exact h l hl

lemma slippageWalk_spec (N : ℚ) :
    ∀ (levels : List Level) (avg filled : ℚ),
      filled < N → N - filled ≤ totalNotional levels →
      slippageWalk N levels avg filled =
        (avg + (((levels.take (fillIndex (N - filled) levels)).map
                  (fun l => levelNotional l / N * l.px)).sum)
             + ((N - filled) - notionalBefore levels (fillIndex (N - filled) levels)) / N
               * ((levels.getD (fillIndex (N - filled) levels) ⟨0, 0⟩).px),
         N) := by
  intro levels
  induction levels with
  | nil =>
      intro avg filled h1 h2
      exfalso
      simp [totalNotional] at h2
      linarith
  | cons l rest ih =>
      intro avg filled h1 h2
      by_cases hbr : N ≤ filled + l.px * l.sz
      · have hfi : fillIndex (N - filled) (l :: rest) = 0 := by
          have : N - filled ≤ levelNotional l := by
            simp only [levelNotional]; linarith
          simp [fillIndex, this]
        rw [hfi]
        simp only [slippageWalk, if_pos hbr, List.take_zero, List.map_nil, List.sum_nil,
          notionalBefore, totalNotional, List.getD, List.getElem?_cons_zero, Option.getD_some]
        refine Prod.ext ?_ rfl
        simp
      · have hlt : filled + l.px * l.sz < N := lt_of_not_le hbr
        have hfi : fillIndex (N - filled) (l :: rest)
            = fillIndex (N - filled - levelNotional l) rest + 1 := by
          have : ¬ (N - filled ≤ levelNotional l) := by
            simp only [levelNotional]; intro hc; exact hbr (by linarith)
          simp [fillIndex, this]
        have h2' : N - (filled + l.px * l.sz) ≤ totalNotional rest := by
          rw [totalNotional_cons] at h2
          simp only [levelNotional] at h2
          linarith
        have step : slippageWalk N (l :: rest) avg filled
            = slippageWalk N rest (avg + l.px * l.sz / N * l.px) (filled + l.px * l.sz) := by
          simp only [slippageWalk, if_neg hbr]
        rw [step, ih _ _ hlt h2', hfi]
        have hsub : N - (filled + l.px * l.sz) = N - filled - levelNotional l := by
          simp only [levelNotional]; ring
        rw [hsub]
        refine Prod.ext ?_ rfl
        simp only [List.take_succ_cons, List.map_cons, List.sum_cons, notionalBefore,
          totalNotional, List.getD_cons_succ]
        simp only [List.map_cons, List.sum_cons, levelNotional]
        ring

lemma slippageWalk_eq_spec (levels : List Level) (N : ℚ)
    (hN : 0 < N) (hliq : N ≤ totalNotional levels) :
    slippageWalk N levels 0 0 = (averageExecutedPriceSpec levels N, N) := by
  have h := slippageWalk_spec N levels 0 0 hN (by simpa using hliq)
  simpa [averageExecutedPriceSpec, sub_zero, zero_add] using h

/-- C1: whenever the ask levels hold at least the tier notional `N > 0`,
`calculate_slippage` returns the absolute relative deviation from `mid` of the
notional-weighted average executed price, where each fully consumed level is
weighted by `(px*sz)/N` and the final partially consumed level by
`(N - previously filled liquidity)/N`. -/
theorem calculate_slippage_sufficient (levels : List Level) (mid N : ℚ)
    (hN : 0 < N) (hliq : N ≤ totalNotional levels) :
    calculate_slippage levels mid N = |averageExecutedPriceSpec levels N / mid - 1| := by
  unfold calculate_slippage
  rw [slippageWalk_eq_spec levels N hN hliq]
  simp

/-- C1 witness: ask levels `[{px:101,sz:2},{px:102,sz:5}]`, mid `100.5`,
tier notional `150`: the fill completes within the first level, the average
executed price is `101`, and the slippage is `|101/100.5 - 1|`. -/
theorem calculate_slippage_sufficient_witness :
    (0 : ℚ) < 150 ∧ (150 : ℚ) ≤ totalNotional [⟨101, 2⟩, ⟨102, 5⟩]
      ∧ calculate_slippage [⟨101, 2⟩, ⟨102, 5⟩] (201/2) 150
          = |averageExecutedPriceSpec [⟨101, 2⟩, ⟨102, 5⟩] 150 / (201/2) - 1|
      ∧ averageExecutedPriceSpec [⟨101, 2⟩, ⟨102, 5⟩] 150 = 101
      ∧ calculate_slippage [⟨101, 2⟩, ⟨102, 5⟩] (201/2) 150 = |(101 : ℚ) / (201/2) - 1| := by
  refine ⟨by norm_num, by norm_num [totalNotional, levelNotional], ?_, ?_, ?_⟩
  · exact calculate_slippage_sufficient _ _ _ (by norm_num)
      (by norm_num [totalNotional, levelNotional])
  · norm_num [averageExecutedPriceSpec, fillIndex, levelNotional, notionalBefore, totalNotional]
  · norm_num [calculate_slippage, slippageWalk]

lemma slippageWalk_snd_insufficient (N : ℚ) :
    ∀ (levels : List Level) (avg filled : ℚ),
      (∀ l ∈ levels, 0 ≤ levelNotional l) →
      filled + totalNotional levels < N →
      (slippageWalk N levels avg filled).2 = filled + totalNotional levels := by
  intro levels
  induction levels with
  | nil =>
      intro avg filled _ _
      simp [slippageWalk, totalNotional]
  | cons l rest ih =>
      intro avg filled hnn h
      have hrest : 0 ≤ totalNotional rest :=
        totalNotional_nonneg rest (fun x hx => hnn x (List.mem_cons_of_mem _ hx))
      rw [totalNotional_cons] at h
      have hbr : ¬ (N ≤ filled + l.px * l.sz) := by
        simp only [levelNotional] at h
        intro hc
        linarith
      have step : slippageWalk N (l :: rest) avg filled
          = slippageWalk N rest (avg + l.px * l.sz / N * l.px) (filled + l.px * l.sz) := by
        simp only [slippageWalk, if_neg hbr]
      rw [step, totalNotional_cons]
      have := ih (avg + l.px * l.sz / N * l.px) (filled + l.px * l.sz)
        (fun x hx => hnn x (List.mem_cons_of_mem _ hx))
        (by simp only [levelNotional] at h ⊢; linarith)
      rw [this]
      simp only [levelNotional]
      ring

/-- C2: when the cumulative ask notional over all levels is strictly below the
tier notional `N`, `calculate_slippage` returns the sentinel `1` exactly,
for every mid price. -/
theorem calculate_slippage_insufficient (levels : List Level) (mid N : ℚ)
    (hpx : ∀ l ∈ levels, 0 ≤ l.px) (hsz : ∀ l ∈ levels, 0 ≤ l.sz)
    (hliq : totalNotional levels < N) :
    calculate_slippage levels mid N = 1 := by
  have hnn : ∀ l ∈ levels, 0 ≤ levelNotional l :=
    fun l hl => mul_nonneg (hpx l hl) (hsz l hl)
  have h2 := slippageWalk_snd_insufficient N levels 0 0 hnn (by linarith)
  have hcond : ¬ (N ≤ (slippageWalk N levels 0 0).2) := by
    rw [h2]
    linarith
  unfold calculate_slippage
  simp [hcond]

lemma notionalBefore_fillIndex_le :
    ∀ (levels : List Level) (N : ℚ), 0 ≤ N →
      notionalBefore levels (fillIndex N levels) ≤ N := by
  intro levels
  induction levels with
  | nil =>
      intro N hN
      simpa [notionalBefore, fillIndex, totalNotional] using hN
  | cons l rest ih =>
      intro N hN
      by_cases hc : N ≤ levelNotional l
      · simpa [fillIndex, hc, notionalBefore, totalNotional] using hN
      · have hlt : levelNotional l < N := lt_of_not_le hc
        have h := ih (N - levelNotional l) (by linarith)
        simp only [fillIndex, if_neg hc, notionalBefore, List.take_succ_cons,
          totalNotional, List.map_cons, List.sum_cons] at h ⊢
        linarith

lemma fillIndex_lt_length :
    ∀ (levels : List Level) (N : ℚ), 0 < N → N ≤ totalNotional levels →
      fillIndex N levels < levels.length := by
  intro levels
  induction levels with
  | nil =>
      intro N hN h
      exfalso
      simp [totalNotional] at h
      linarith
  | cons l rest ih =>
      intro N hN h
      by_cases hc : N ≤ levelNotional l
      · simp [fillIndex, hc]
      · rw [totalNotional_cons] at h
        have hlt : levelNotional l < N := lt_of_not_le hc
        have := ih (N - levelNotional l) (by linarith) (by linarith)
        simp only [fillIndex, if_neg hc, List.length_cons]
        omega

lemma listMin_le : ∀ (l : List ℚ), ∀ x ∈ l, listMin l ≤ x := by
  intro l
  induction l with
  | nil => intro x hx; simp at hx
  | cons a t ih =>
      intro x hx
      cases t with
      | nil =>
          simp at hx
          simp [listMin, hx]
      | cons b t2 =>
          rcases List.mem_cons.mp hx with rfl | hx2
          · simp [listMin]
          · exact le_trans (min_le_right _ _) (ih x hx2)

lemma le_listMax : ∀ (l : List ℚ), ∀ x ∈ l, x ≤ listMax l := by
  intro l
  induction l with
  | nil => intro x hx; simp at hx
  | cons a t ih =>
      intro x hx
      cases t with
      | nil =>
          simp at hx
          simp [listMax, hx]
      | cons b t2 =>
          rcases List.mem_cons.mp hx with rfl | hx2
          · simp [listMax]
          · exact le_trans (ih x hx2) (le_max_right _ _)

lemma sum_div_weights (ls : List Level) (N : ℚ) :
    (ls.map (fun l => levelNotional l / N)).sum = totalNotional ls / N := by
  induction ls with
  | nil => simp [totalNotional]
  | cons a t ih =>
      rw [List.map_cons, List.sum_cons, ih, totalNotional_cons]
      ring

lemma weighted_sum_le (ls : List Level) (N M : ℚ) (hN : 0 < N)
    (hw : ∀ l ∈ ls, 0 ≤ levelNotional l)
    (hp : ∀ l ∈ ls, l.px ≤ M) :
    (ls.map (fun l => levelNotional l / N * l.px)).sum
      ≤ (ls.map (fun l => levelNotional l / N)).sum * M := by
  rw [← List.sum_map_mul_right]
  refine List.sum_le_sum ?_
  intro l hl
  exact mul_le_mul_of_nonneg_left (hp l hl) (div_nonneg (hw l hl) hN.le)

lemma le_weighted_sum (ls : List Level) (N m : ℚ) (hN : 0 < N)
    (hw : ∀ l ∈ ls, 0 ≤ levelNotional l)
    (hp : ∀ l ∈ ls, m ≤ l.px) :
    (ls.map (fun l => levelNotional l / N)).sum * m
      ≤ (ls.map (fun l => levelNotional l / N * l.px)).sum := by
  rw [← List.sum_map_mul_right]
  refine List.sum_le_sum ?_
  intro l hl
  exact mul_le_mul_of_nonneg_left (hp l hl) (div_nonneg (hw l hl) hN.le)

/-- C10: in the sufficient-liquidity branch the accumulated per-level weights
sum to exactly `1`, the walk's accumulated average executed price is the
corresponding convex combination of the consumed levels' prices, and it lies
between the minimum and the maximum price among the consumed levels
(the first `fillIndex + 1` levels). -/
theorem slippage_walk_convex (levels : List Level) (N : ℚ)
    (hN : 0 < N) (hliq : N ≤ totalNotional levels)
    (hpx : ∀ l ∈ levels, 0 ≤ l.px) (hsz : ∀ l ∈ levels, 0 ≤ l.sz) :
    ((levels.take (fillIndex N levels)).map (fun l => levelNotional l / N)).sum
        + (N - notionalBefore levels (fillIndex N levels)) / N = 1
      ∧ (slippageWalk N levels 0 0).1 = averageExecutedPriceSpec levels N
      ∧ listMin ((levels.take (fillIndex N levels + 1)).map (fun l => l.px))
          ≤ (slippageWalk N levels 0 0).1
      ∧ (slippageWalk N levels 0 0).1
          ≤ listMax ((levels.take (fillIndex N levels + 1)).map (fun l => l.px)) := by
  have hNne : N ≠ 0 := ne_of_gt hN
  have hklen : fillIndex N levels < levels.length := fillIndex_lt_length levels N hN hliq
  have havg : (slippageWalk N levels 0 0).1 = averageExecutedPriceSpec levels N := by
    rw [slippageWalk_eq_spec levels N hN hliq]
  have hwsum : ((levels.take (fillIndex N levels)).map (fun l => levelNotional l / N)).sum
      + (N - notionalBefore levels (fillIndex N levels)) / N = 1 := by
    rw [sum_div_weights]
    simp only [notionalBefore]
    field_simp
  have hsubset : levels.take (fillIndex N levels) ⊆ levels.take (fillIndex N levels + 1) := by
    intro x hx
    have hx' : x ∈ (levels.take (fillIndex N levels + 1)).take (fillIndex N levels) := by
      rw [List.take_take]
      simpa [Nat.min_eq_left (Nat.le_succ _)] using hx
    exact List.take_subset _ _ hx'
  have hlastlen : fillIndex N levels < (levels.take (fillIndex N levels + 1)).length := by
    simp only [List.length_take]
    omega
  have hlast_mem : (levels.getD (fillIndex N levels) ⟨0, 0⟩)
      ∈ levels.take (fillIndex N levels + 1) := by
    have hg : levels.getD (fillIndex N levels) ⟨0, 0⟩ = levels[fillIndex N levels] := by
      simp [List.getD_eq_getElem?_getD, List.getElem?_eq_getElem hklen]
    rw [hg, List.getElem_take' levels hklen (Nat.lt_succ_self _)]
    exact List.getElem_mem _
  have hfweight : 0 ≤ (N - notionalBefore levels (fillIndex N levels)) / N :=
    div_nonneg (by linarith [notionalBefore_fillIndex_le levels N hN.le]) hN.le
  have hwnn : ∀ l ∈ levels.take (fillIndex N levels), 0 ≤ levelNotional l := by
    intro l hl
    have hl' : l ∈ levels := List.take_subset _ _ hl
    exact mul_nonneg (hpx l hl') (hsz l hl')
  refine ⟨hwsum, havg, ?_, ?_⟩
  · -- lower bound by the minimum consumed price
    set m := listMin ((levels.take (fillIndex N levels + 1)).map (fun l => l.px)) with hm
    have hmle : ∀ l ∈ levels.take (fillIndex N levels + 1), m ≤ l.px := by
      intro l hl
      exact listMin_le _ _ (List.mem_map.mpr ⟨l, hl, rfl⟩)
    have h1 := le_weighted_sum (levels.take (fillIndex N levels)) N m hN hwnn
      (fun l hl => hmle l (hsubset hl))
    have h2 : (N - notionalBefore levels (fillIndex N levels)) / N * m
        ≤ (N - notionalBefore levels (fillIndex N levels)) / N
          * (levels.getD (fillIndex N levels) ⟨0, 0⟩).px :=
      mul_le_mul_of_nonneg_left (hmle _ hlast_mem) hfweight
    have hsplit : ((levels.take (fillIndex N levels)).map (fun l => levelNotional l / N)).sum * m
        + (N - notionalBefore levels (fillIndex N levels)) / N * m = m := by
      rw [← add_mul, hwsum, one_mul]
    rw [havg]
    unfold averageExecutedPriceSpec
    linarith [h1, h2, hsplit]
  · -- upper bound by the maximum consumed price
    set M := listMax ((levels.take (fillIndex N levels + 1)).map (fun l => l.px)) with hM
    have hMle : ∀ l ∈ levels.take (fillIndex N levels + 1), l.px ≤ M := by
      intro l hl
      exact le_listMax _ _ (List.mem_map.mpr ⟨l, hl, rfl⟩)
    have h1 := weighted_sum_le (levels.take (fillIndex N levels)) N M hN hwnn
      (fun l hl => hMle l (hsubset hl))
    have h2 : (N - notionalBefore levels (fillIndex N levels)) / N
          * (levels.getD (fillIndex N levels) ⟨0, 0⟩).px
        ≤ (N - notionalBefore levels (fillIndex N levels)) / N * M :=
      mul_le_mul_of_nonneg_left (hMle _ hlast_mem) hfweight
    have hsplit : ((levels.take (fillIndex N levels)).map (fun l => levelNotional l / N)).sum * M
        + (N - notionalBefore levels (fillIndex N levels)) / N * M = M := by
      rw [← add_mul, hwsum, one_mul]
    rw [havg]
    unfold averageExecutedPriceSpec
    linarith [h1, h2, hsplit]

/-- C10 witness: the example book at tier `150` consumes only the first level,
its weights sum to `1` and the average price `101` lies between the consumed
minimum and maximum (both `101`). -/
theorem slippage_walk_convex_witness :
    (0 : ℚ) < 150 ∧ (150 : ℚ) ≤ totalNotional [⟨101, 2⟩, ⟨102, 5⟩]
      ∧ ((([(⟨101, 2⟩ : Level), ⟨102, 5⟩].take
            (fillIndex 150 [⟨101, 2⟩, ⟨102, 5⟩])).map (fun l => levelNotional l / 150)).sum
          + (150 - notionalBefore [⟨101, 2⟩, ⟨102, 5⟩] (fillIndex 150 [⟨101, 2⟩, ⟨102, 5⟩])) / 150 = 1)
      ∧ (slippageWalk 150 [⟨101, 2⟩, ⟨102, 5⟩] 0 0).1
          = averageExecutedPriceSpec [⟨101, 2⟩, ⟨102, 5⟩] 150
      ∧ listMin (([(⟨101, 2⟩ : Level), ⟨102, 5⟩].take
            (fillIndex 150 [⟨101, 2⟩, ⟨102, 5⟩] + 1)).map (fun l => l.px))
          ≤ (slippageWalk 150 [⟨101, 2⟩, ⟨102, 5⟩] 0 0).1
      ∧ (slippageWalk 150 [⟨101, 2⟩, ⟨102, 5⟩] 0 0).1
          ≤ listMax (([(⟨101, 2⟩ : Level), ⟨102, 5⟩].take
            (fillIndex 150 [⟨101, 2⟩, ⟨102, 5⟩] + 1)).map (fun l => l.px)) := by
  refine ⟨by norm_num, by norm_num [totalNotional, levelNotional], ?_⟩
  exact slippage_walk_convex [⟨101, 2⟩, ⟨102, 5⟩] 150 (by norm_num)
    (by norm_num [totalNotional, levelNotional])
    (by intro l hl; simp at hl; rcases hl with rfl | rfl <;> norm_num)
    (by intro l hl; simp at hl; rcases hl with rfl | rfl <;> norm_num)

/-- C2 witness: levels `[{px:101,sz:2},{px:102,sz:5}]` have total notional
`712 < 1000`, so the `1000` tier slippage is the sentinel `1`. -/
theorem calculate_slippage_insufficient_witness :
    (∀ l ∈ [(⟨101, 2⟩ : Level), ⟨102, 5⟩], 0 ≤ l.px)
      ∧ (∀ l ∈ [(⟨101, 2⟩ : Level), ⟨102, 5⟩], 0 ≤ l.sz)
      ∧ totalNotional [⟨101, 2⟩, ⟨102, 5⟩] < 1000
      ∧ calculate_slippage [⟨101, 2⟩, ⟨102, 5⟩] (201/2) 1000 = 1 := by
  refine ⟨?_, ?_, ?_, ?_⟩
  · intro l hl
    simp at hl
    rcases hl with rfl | rfl <;> norm_num
  · intro l hl
    simp at hl
    rcases hl with rfl | rfl <;> norm_num
  · norm_num [totalNotional, levelNotional]
  · exact calculate_slippage_insufficient _ _ _
      (by intro l hl; simp at hl; rcases hl with rfl | rfl <;> norm_num)
      (by intro l hl; simp at hl; rcases hl with rfl | rfl <;> norm_num)
      (by norm_num [totalNotional, levelNotional])

lemma mem_generate_dates (s t d : ℤ) :
    d ∈ generate_dates s t ↔ s ≤ d ∧ d ≤ t := by
  simp only [generate_dates, List.mem_map, List.mem_range]
  constructor
  · rintro ⟨x, hx, rfl⟩
    omega
  · rintro ⟨h1, h2⟩
    exact ⟨(d - s).toNat, by omega, by omega⟩

lemma length_generate_dates (s t : ℤ) :
    (generate_dates s t).length = (t - s + 1).toNat := by
  simp only [generate_dates, List.length_map, List.length_range]

lemma generate_dates_cons (s t : ℤ) (h : s ≤ t) :
    generate_dates s t = s :: generate_dates (s + 1) t := by
  have hn : (t - s + 1).toNat = (t - (s + 1) + 1).toNat + 1 := by omega
  simp only [generate_dates, hn, List.range_succ_eq_map, List.map_cons, List.map_map]
  congr 1
  · simp
  · refine List.map_congr_left ?_
    intro x _
    simp only [Function.comp_apply, Nat.succ_eq_add_one]
    push_cast
    ring

lemma chain_generate_dates (s t : ℤ) :
    List.Chain' (· < ·) (generate_dates s t) := by
  refine List.Pairwise.chain' ?_
  exact (List.pairwise_lt_range _).map _ (fun a b hab => by omega)

lemma runLoop_eq_filter (ok : ℤ → Bool) :
    ∀ dates : List ℤ,
      runLoop ok dates = (dates.filter ok, dates.filter (fun d => !(ok d))) := by
  intro dates
  induction dates with
  | nil => rfl
  | cons d rest ih =>
      cases hok : ok d <;> simp [runLoop, ih, List.filter_cons, hok]

/-- C7: for a flat-daily dataset with watermark `s ≤ today`, `generate_dates`
returns exactly the consecutive dates `s..today` in strictly ascending order,
and the run loop's `dates[1:]` is exactly the dates `s + 1` through today,
one partition per date, still strictly ascending. -/
theorem enumerator_dates (s t : ℤ) (h : s ≤ t) :
    (∀ d : ℤ, d ∈ generate_dates s t ↔ s ≤ d ∧ d ≤ t)
      ∧ List.Chain' (· < ·) (generate_dates s t)
      ∧ (generate_dates s t).length = (t - s).toNat + 1
      ∧ (generate_dates s t).drop 1 = generate_dates (s + 1) t
      ∧ (∀ d : ℤ, d ∈ (generate_dates s t).drop 1 ↔ s + 1 ≤ d ∧ d ≤ t)
      ∧ List.Chain' (· < ·) ((generate_dates s t).drop 1) := by
  have hdrop : (generate_dates s t).drop 1 = generate_dates (s + 1) t := by
    rw [generate_dates_cons s t h]
    rfl
  refine ⟨fun d => mem_generate_dates s t d, chain_generate_dates s t, ?_, hdrop, ?_, ?_⟩
  · rw [length_generate_dates]
    omega
  · intro d
    rw [hdrop]
    exact mem_generate_dates (s + 1) t d
  · rw [hdrop]
    exact chain_generate_dates (s + 1) t

/-- C7 witness: instantiated at watermark `0` and today `2`. -/
theorem enumerator_dates_witness :
    (0 : ℤ) ≤ 2 ∧
      ((∀ d : ℤ, d ∈ generate_dates 0 2 ↔ 0 ≤ d ∧ d ≤ 2)
        ∧ List.Chain' (· < ·) (generate_dates 0 2)
        ∧ (generate_dates 0 2).length = ((2 : ℤ) - 0).toNat + 1
        ∧ (generate_dates 0 2).drop 1 = generate_dates (0 + 1) 2
        ∧ (∀ d : ℤ, d ∈ (generate_dates 0 2).drop 1 ↔ 0 + 1 ≤ d ∧ d ≤ 2)
        ∧ List.Chain' (· < ·) ((generate_dates 0 2).drop 1)) :=
  ⟨by norm_num, enumerator_dates 0 2 (by norm_num)⟩

/-- C5: when a first run has committed cache rows through today (the cache
table's max `time` is today), a second run the same day reads that watermark,
computes the singleton date list `[today]`, iterates over the empty tail
`dates[1:]`, and commits zero new cache rows. -/
theorem second_run_no_new_rows (cache : List ℤ) (today : ℤ) (ok : ℤ → Bool)
    (h : get_latest_date cache = some today) :
    seedStart (get_latest_date cache) today = today
      ∧ generate_dates today today = [today]
      ∧ (generate_dates today today).drop 1 = []
      ∧ (runLoop ok ((generate_dates today today).drop 1)).1 = [] := by
  have h1 : generate_dates today today = [today] := by
    have : (today - today + 1).toNat = 1 := by omega
    simp [generate_dates, this, List.range_succ]
  refine ⟨by rw [h]; rfl, h1, by rw [h1]; rfl, by rw [h1]; rfl⟩

/-- C5 witness: cache table with max date 19723 (2024-01-01), second run the
same day. -/
theorem second_run_no_new_rows_witness :
    get_latest_date [19723] = some 19723
      ∧ (seedStart (get_latest_date [19723]) 19723 = 19723
        ∧ generate_dates 19723 19723 = [19723]
        ∧ (generate_dates 19723 19723).drop 1 = []
        ∧ (runLoop (fun _ => true) ((generate_dates 19723 19723).drop 1)).1 = []) :=
  ⟨rfl, second_run_no_new_rows [19723] 19723 (fun _ => true) rfl⟩

/-- C6 counterexample: watermark at day 0, today day 5, day 3 fails.  The run
commits days 1, 2, 4, 5 and alerts day 3, but the new cache watermark is day 5,
so the next run (here started the following day, day 6) enumerates only `[6]`
and day 3 does NOT reappear in its partition list — refuting the claim's final
clause. -/
theorem failed_date_not_retried_counterexample :
    (runLoop (fun d => d != 3) ((generate_dates 0 5).drop 1)).1 = [1, 2, 4, 5]
      ∧ (runLoop (fun d => d != 3) ((generate_dates 0 5).drop 1)).2 = [3]
      ∧ get_latest_date ([0] ++ [1, 2, 4, 5]) = some 5
      ∧ (generate_dates (seedStart (some 5) 6) 6).drop 1 = [6]
      ∧ ¬ (3 ∈ (generate_dates (seedStart (some 5) 6) 6).drop 1) := by
  decide

/-- C6 amended: failures are isolated per date — each failing date is alerted
and skipped while every other date in the range is still attempted and
committed — but a failed date does not reappear in the next run's partition
list once a later date has committed: every enumerated date lies strictly
after the watermark the run starts from, and the watermark is the cache
table's maximum committed date. -/
theorem failure_isolation_amended (ok : ℤ → Bool) (dates : List ℤ) :
    (runLoop ok dates).1 = dates.filter ok
      ∧ (runLoop ok dates).2 = dates.filter (fun d => !(ok d))
      ∧ (∀ latest today d : ℤ, d ∈ (generate_dates latest today).drop 1 → latest < d) := by
  refine ⟨?_, ?_, ?_⟩
  · rw [runLoop_eq_filter]
  · rw [runLoop_eq_filter]
  · intro latest today d hd
    by_cases hle : latest ≤ today
    · rw [generate_dates_cons latest today hle] at hd
      have := (mem_generate_dates (latest + 1) today d).mp hd
      omega
    · have hempty : generate_dates latest today = [] := by
        have : (today - latest + 1).toNat = 0 := by omega
        simp [generate_dates, this]
      rw [hempty] at hd
      simp at hd

/-- C6 amended witness: the scenario of the counterexample, and date 6 of the
next run lies strictly after the new watermark 5. -/
theorem failure_isolation_amended_witness :
    (runLoop (fun d => d != 3) [1, 2, 3, 4, 5]).1 = [1, 2, 4, 5]
      ∧ (runLoop (fun d => d != 3) [1, 2, 3, 4, 5]).2 = [3]
      ∧ (5 : ℤ) < 6 := by
  have h := failure_isolation_amended (fun d => d != 3) [1, 2, 3, 4, 5]
  refine ⟨?_, ?_, h.2.2 5 6 6 (by decide)⟩
  · rw [h.1]
    decide
  · rw [h.2.1]
    decide

/-- C8: consistency checking — if the post-run cache max date and raw max date
both exist and differ, the check reports a divergence carrying both dates; if
they agree no alert is sent; the check is evaluated exactly once per dataset,
on the tables as they stand after all partitions were attempted; and in the
concrete scenario cache max 2024-01-09 (19731) vs raw max 2024-01-10 (19732)
the run completes, returning the divergence report with both dates. -/
theorem consistency_divergence_reported (c r : ℤ) (hne : c ≠ r) :
    consistencyCheck (some c) (some r) = some (c, some r)
      ∧ consistencyCheck (some c) (some c) = none
      ∧ (∀ (ok : ℤ → Bool) (cache0 raw0 : List ℤ) (today : ℤ),
          (runDataset ok cache0 raw0 today).divergence
            = consistencyCheck
                (get_latest_date (cache0 ++ (runDataset ok cache0 raw0 today).committed))
                (get_latest_date (raw0 ++ (runDataset ok cache0 raw0 today).committed)))
      ∧ runDataset (fun _ => false) [19731] [19732] 19732
          = { committed := [], failureAlerts := [19732],
              divergence := some (19731, some 19732) } := by
  have hrc : r ≠ c := Ne.symm hne
  refine ⟨?_, ?_, ?_, ?_⟩
  · simp [consistencyCheck, hrc]
  · simp [consistencyCheck]
  · intro ok cache0 raw0 today
    rfl
  · decide

/-- C8 witness: instantiated at cache max 0 and raw max 1. -/
theorem consistency_divergence_reported_witness :
    (0 : ℤ) ≠ 1
      ∧ (consistencyCheck (some 0) (some 1) = some (0, some 1)
        ∧ consistencyCheck (some 0) (some 0) = none
        ∧ (∀ (ok : ℤ → Bool) (cache0 raw0 : List ℤ) (today : ℤ),
            (runDataset ok cache0 raw0 today).divergence
              = consistencyCheck
                  (get_latest_date (cache0 ++ (runDataset ok cache0 raw0 today).committed))
                  (get_latest_date (raw0 ++ (runDataset ok cache0 raw0 today).committed)))
        ∧ runDataset (fun _ => false) [19731] [19732] 19732
            = { committed := [], failureAlerts := [19732],
                divergence := some (19731, some 19732) }) :=
  ⟨by decide, consistency_divergence_reported 0 1 (by decide)⟩

/-- C9: on an empty cache table the watermark query returns `none` (NULL),
the run seeds the start date as today minus 30 days instead of failing, and
the processed range `dates[1:]` is exactly the 30 consecutive dates
`today - 29` through today. -/
theorem empty_cache_lookback (today : ℤ) :
    get_latest_date ([] : List ℤ) = none
      ∧ seedStart (get_latest_date ([] : List ℤ)) today = today - 30
      ∧ ((generate_dates (today - 30) today).drop 1).length = 30
      ∧ (∀ d : ℤ, d ∈ (generate_dates (today - 30) today).drop 1
          ↔ today - 29 ≤ d ∧ d ≤ today) := by
  have hdrop : (generate_dates (today - 30) today).drop 1
      = generate_dates (today - 30 + 1) today := by
    rw [generate_dates_cons _ _ (by omega)]
    rfl
  refine ⟨rfl, rfl, ?_, ?_⟩
  · rw [hdrop, length_generate_dates]
    omega
  · intro d
    rw [hdrop, mem_generate_dates]
    omega

/-- C3: the market-data transform computes, per snapshot, liquidity as the sum
of `px*sz` over all bid and ask levels and mid as half the sum of the first
bid and first ask price, and emits exactly one cache row per (date, coin):
the output coins are distinct, they are exactly the snapshots' coins, every
row carries the partition date, the medians over the coin's snapshots of
liquidity and of the tier-1000/3000/10000 slippages, and the mean of the
snapshots' mid as the day's reference price. -/
theorem market_data_transform (date : ℤ) (snaps : List Snapshot) :
    ((update_market_data_cache date snaps).map (fun r => r.coin)).Nodup
      ∧ (∀ c : String, c ∈ (update_market_data_cache date snaps).map (fun r => r.coin)
          ↔ c ∈ snaps.map (fun s => s.coin))
      ∧ (∀ r ∈ update_market_data_cache date snaps,
          r.time = date
          ∧ r.median_liquidity = median ((snaps.filter (fun s => s.coin = r.coin)).map
              (fun s => ((s.bids ++ s.asks).map (fun l => l.px * l.sz)).sum))
          ∧ r.median_slippage_1000 = median ((snaps.filter (fun s => s.coin = r.coin)).map
              (fun s => calculate_slippage s.asks
                (((s.bids.headD ⟨0, 0⟩).px + (s.asks.headD ⟨0, 0⟩).px) / 2) 1000))
          ∧ r.median_slippage_3000 = median ((snaps.filter (fun s => s.coin = r.coin)).map
              (fun s => calculate_slippage s.asks
                (((s.bids.headD ⟨0, 0⟩).px + (s.asks.headD ⟨0, 0⟩).px) / 2) 3000))
          ∧ r.median_slippage_10000 = median ((snaps.filter (fun s => s.coin = r.coin)).map
              (fun s => calculate_slippage s.asks
                (((s.bids.headD ⟨0, 0⟩).px + (s.asks.headD ⟨0, 0⟩).px) / 2) 10000))
          ∧ r.mid_price = mean ((snaps.filter (fun s => s.coin = r.coin)).map
              (fun s => ((s.bids.headD ⟨0, 0⟩).px + (s.asks.headD ⟨0, 0⟩).px) / 2))) := by
  have hmap : (update_market_data_cache date snaps).map (fun r => r.coin)
      = (snaps.map (fun s => s.coin)).dedup := by
    simp only [update_market_data_cache, List.map_map]
    refine Eq.trans (List.map_congr_left ?_) (List.map_id _)
    intro c _
    rfl
  refine ⟨?_, ?_, ?_⟩
  · rw [hmap]
    exact List.nodup_dedup _
  · intro c
    rw [hmap]
    exact List.mem_dedup
  · intro r hr
    simp only [update_market_data_cache, List.mem_map] at hr
    obtain ⟨c, hc, rfl⟩ := hr
    refine ⟨rfl, ?_, ?_, ?_, ?_, ?_⟩
    · show median _ = median _
      congr 1
      refine List.map_congr_left ?_
      intro s _
      simp [snapLiquidity]
    · simp [snapMid, snapHighestBid, snapLowestAsk]
    · simp [snapMid, snapHighestBid, snapLowestAsk]
    · simp [snapMid, snapHighestBid, snapLowestAsk]
    · rfl

/-- C4 (code bug): the claim's single-group example does aggregate to the
claimed row (`mean_px = 101`, `sum_sz = 3`, `group_count = 2`,
`usd_volume = 303`), but `group_count` is NOT in general the group's own row
count: on `misalignedTradeRows` the code emits the U1 group (2 raw rows)
with `group_count = 1` and the U2 group (1 raw row) with `group_count = 2` —
each output row receives the group size of the like-indexed RAW row, because
the per-raw-row `transform("count")` Series is aligned onto `df_agg`'s
RangeIndex.  The final conjunct refutes the claimed per-group count property
at this input; `mean_px`, `sum_sz`, `usd_volume` and `time` are still as
claimed. -/
theorem trades_group_count_misaligned :
    update_cache_tables_trades exampleTradeRows 19723
        = [⟨"U1", "BTC", "buy", true, "na", 101, 3, 2, 19723, 303⟩]
      ∧ update_cache_tables_trades misalignedTradeRows 19723
          = [⟨"U1", "BTC", "buy", true, "na", 101, 3, 1, 19723, 303⟩,
             ⟨"U2", "BTC", "buy", true, "na", 100, 1, 2, 19723, 100⟩]
      ∧ ¬ (∀ out ∈ update_cache_tables_trades misalignedTradeRows 19723,
            out.group_count = (misalignedTradeRows.filter
              (fun r => tradeKey r = (out.user, out.coin, out.side, out.crossed,
                out.special_trade_type))).length) := by
  have hex : update_cache_tables_trades exampleTradeRows 19723
      = [⟨"U1", "BTC", "buy", true, "na", 101, 3, 2, 19723, 303⟩] := by
    have hkeys : sortedTradeKeys exampleTradeRows = [("U1", "BTC", "buy", true, "na")] := by
      decide
    rw [update_cache_tables_trades, hkeys]
    have hf : exampleTradeRows.filter
        (fun r => tradeKey r = (("U1", "BTC", "buy", true, "na") :
          String × String × String × Bool × String))
        = [⟨"U1", "BTC", "buy", true, "na", 100, 2⟩, ⟨"U1", "BTC", "buy", true, "na", 102, 1⟩] := by
      decide
    have hg : rawRowGroupSize exampleTradeRows 0 = 2 := by decide
    have he : List.enum [(("U1", "BTC", "buy", true, "na") :
        String × String × String × Bool × String)]
        = [(0, ("U1", "BTC", "buy", true, "na"))] := rfl
    rw [he, List.map_cons, List.map_nil]
    simp only [hf, hg]
    norm_num [mean]
  have hmis : update_cache_tables_trades misalignedTradeRows 19723
      = [⟨"U1", "BTC", "buy", true, "na", 101, 3, 1, 19723, 303⟩,
         ⟨"U2", "BTC", "buy", true, "na", 100, 1, 2, 19723, 100⟩] := by
    have hkeys : sortedTradeKeys misalignedTradeRows
        = [("U1", "BTC", "buy", true, "na"), ("U2", "BTC", "buy", true, "na")] := by
      decide
    rw [update_cache_tables_trades, hkeys]
    have hf1 : misalignedTradeRows.filter
        (fun r => tradeKey r = (("U1", "BTC", "buy", true, "na") :
          String × String × String × Bool × String))
        = [⟨"U1", "BTC", "buy", true, "na", 100, 2⟩, ⟨"U1", "BTC", "buy", true, "na", 102, 1⟩] := by
      decide
    have hf2 : misalignedTradeRows.filter
        (fun r => tradeKey r = (("U2", "BTC", "buy", true, "na") :
          String × String × String × Bool × String))
        = [⟨"U2", "BTC", "buy", true, "na", 100, 1⟩] := by
      decide
    have hg0 : rawRowGroupSize misalignedTradeRows 0 = 1 := by decide
    have hg1 : rawRowGroupSize misalignedTradeRows 1 = 2 := by decide
    have he : List.enum [(("U1", "BTC", "buy", true, "na") :
        String × String × String × Bool × String), ("U2", "BTC", "buy", true, "na")]
        = [(0, ("U1", "BTC", "buy", true, "na")), (1, ("U2", "BTC", "buy", true, "na"))] := rfl
    rw [he, List.map_cons, List.map_cons, List.map_nil]
    simp only [hf1, hf2, hg0, hg1]
    norm_num [mean]
  refine ⟨hex, hmis, ?_⟩
  intro hall
  have h1 : (⟨"U1", "BTC", "buy", true, "na", 101, 3, 1, 19723, 303⟩ : TradeCacheRow)
      ∈ update_cache_tables_trades misalignedTradeRows 19723 := by
    rw [hmis]
    exact List.mem_cons_self _ _
  have hwrong := hall _ h1
  simp only [tradeKey] at hwrong
  have hlen : (misalignedTradeRows.filter
      (fun r => (r.user, r.coin, r.side, r.crossed, r.special_trade_type)
        = (("U1", "BTC", "buy", true, "na") :
          String × String × String × Bool × String))).length = 2 := by decide
  rw [hlen] at hwrong
  exact absurd hwrong (by decide)
